import Mathlib

/-!
Shallow embedding of the incendium gateway modules
(`src/python/incendium/db.py` and `src/python/incendium/user.py`).

The host SCADA platform's APIs (`system.db`, `system.user`,
`system.security`) are external collaborators of this code; they are
modelled as structures of abstract operations.  A fallible host call is
modelled with `Option E` (a raised failure) or `Except E` (failure or
value).  The database wrapper additionally records the trace of actions
it performs on the host call object, so that ordering and single-execution
properties can be stated.
-/

namespace Incendium.Db

/-- Observable actions performed on a stored-procedure call object, in the
order the wrapper performs them. -/
inductive Action (V : Type) where
  | regIn (name : String) (typeCode : Int) (value : V)
  | regOut (name : String) (typeCode : Int)
  | regRet (typeCode : Option Int)
  | exec
deriving DecidableEq

/-- Recognizer for the execution action. -/
def Action.isExec {V : Type} : Action V → Bool
  | Action.exec => true
  | _ => false

/-- Recognizer for output-parameter registration actions. -/
def Action.isRegOut {V : Type} : Action V → Bool
  | Action.regOut _ _ => true
  | _ => false

/-- Result rows of a stored procedure: an ordered sequence of records. -/
abbrev Dataset (V : Type) := List (List V)

/-- Mirror of `_Result` (db.py): a per-call bundle of up to four optional
facets, each `none` unless populated after execution.  Output parameters
(a Python dict keyed by the declared output names) are an association
list. -/
structure _Result (V : Type) where
  output_params : Option (List (String × V))
  result_set : Option (Dataset V)
  return_value : Option Int
  update_count : Option Int
deriving DecidableEq

/-- Abstract model of the host platform's stored-procedure call API
(`system.db.createSProcCall`, the call object's registration methods,
`system.db.execSProcCall`, and the post-execution accessors).  Each
operation that can raise reports its failure as `some e` / `Except.error e`;
the post-execution accessors for the result set, return value and update
count are host-supplied values. -/
structure Host (V E : Type) where
  createCall : String → String → Option String → Bool → Option E
  regIn : String → Int → V → Option E
  regOut : String → Int → Option E
  regRet : Option Int → Option E
  execC : Option E
  outVal : String → Except E V
  resSet : Dataset V
  retVal : Int
  updCount : Int

/-- The `for in_param in in_params:` registration loop of `_execute_sp`:
registers each input parameter (name, type tag, value) in order, stopping
at the first host failure; returns the trace of attempted registrations
and the failure, if any. -/
def regInputs {V E : Type} (h : Host V E) :
    List (String × Int × V) → List (Action V) × Option E
  | [] => ([], none)
  | (n, t, v) :: rest =>
    match h.regIn n t v with
    | some e => ([Action.regIn n t v], some e)
    | none => (Action.regIn n t v :: (regInputs h rest).1, (regInputs h rest).2)

/-- The `for out_param in out_params:` registration loop of `_execute_sp`:
registers each declared output parameter (name, type tag) in order. -/
def regOutputs {V E : Type} (h : Host V E) :
    List (String × Int) → List (Action V) × Option E
  | [] => ([], none)
  | (n, t) :: rest =>
    match h.regOut n t with
    | some e => ([Action.regOut n t], some e)
    | none => (Action.regOut n t :: (regOutputs h rest).1, (regOutputs h rest).2)

/-- The post-execution read-back loop of `_execute_sp`: one
`getOutParamValue` lookup per declared output name, building the
`_out_params` dictionary keyed by those names. -/
def readOutParams {V E : Type} (h : Host V E) :
    List (String × Int) → Except E (List (String × V))
  | [] => Except.ok []
  | (n, _) :: rest =>
    match h.outVal n with
    | Except.error e => Except.error e
    | Except.ok v =>
      match readOutParams h rest with
      | Except.error e => Except.error e
      | Except.ok vs => Except.ok ((n, v) :: vs)

/-- Mirror of `_execute_sp` (db.py): create the call, register inputs,
register outputs, register the return parameter when `get_ret_val`,
execute, read back declared output values, and populate only the
requested facets of the result bundle.  The first component is the trace
of actions attempted on the call object; any host failure aborts the
sequence and is returned unchanged. -/
def _execute_sp {V E : Type} (h : Host V E) (stored_procedure : String)
    (database : String) (transaction : Option String) (skip_audit : Bool)
    (in_params : List (String × Int × V)) (out_params : List (String × Int))
    (get_out_params : Bool) (get_result_set : Bool) (get_ret_val : Bool)
    (return_type_code : Option Int) (get_update_count : Bool) :
    List (Action V) × Except E (_Result V) :=
  match h.createCall stored_procedure database transaction skip_audit with
  | some e => ([], Except.error e)
  | none =>
    match (regInputs h in_params).2 with
    | some e => ((regInputs h in_params).1, Except.error e)
    | none =>
      match (regOutputs h out_params).2 with
      | some e =>
        ((regInputs h in_params).1 ++ (regOutputs h out_params).1,
         Except.error e)
      | none =>
        match (if get_ret_val then h.regRet return_type_code else none) with
        | some e =>
          ((regInputs h in_params).1 ++ (regOutputs h out_params).1 ++
             (if get_ret_val then [Action.regRet return_type_code] else []),
           Except.error e)
        | none =>
          match h.execC with
          | some e =>
            ((regInputs h in_params).1 ++ (regOutputs h out_params).1 ++
               (if get_ret_val then [Action.regRet return_type_code] else []) ++
               [Action.exec],
             Except.error e)
          | none =>
            match readOutParams h out_params with
            | Except.error e =>
              ((regInputs h in_params).1 ++ (regOutputs h out_params).1 ++
                 (if get_ret_val then [Action.regRet return_type_code] else []) ++
                 [Action.exec],
               Except.error e)
            | Except.ok outVals =>
              ((regInputs h in_params).1 ++ (regOutputs h out_params).1 ++
                 (if get_ret_val then [Action.regRet return_type_code] else []) ++
                 [Action.exec],
               Except.ok
                 ⟨if get_out_params then some outVals else none,
                  if get_result_set then some h.resSet else none,
                  if get_ret_val then some h.retVal else none,
                  if get_update_count then some h.updCount else none⟩)

/-- Specification-side description of the full action sequence `_execute_sp`
is supposed to perform: every input registration in map order, then every
output registration, then the return registration iff requested, then one
execution. -/
def plannedActions {V : Type} (in_params : List (String × Int × V))
    (out_params : List (String × Int)) (get_ret_val : Bool)
    (return_type_code : Option Int) : List (Action V) :=
  in_params.map (fun p => Action.regIn p.1 p.2.1 p.2.2) ++
  out_params.map (fun p => Action.regOut p.1 p.2) ++
  (if get_ret_val then [Action.regRet return_type_code] else []) ++
  [Action.exec]

/-- The host constant `system.db.BIT`: the JDBC type code for a boolean
(BIT) column. -/
def BIT : Int := -7

/-- Mirror of `get_output_params` (db.py): invoke the orchestrator with the
caller-declared output parameters and transaction context, requesting only
the output-parameter facet, and return `result.output_params`.  The action
trace of the underlying invocation is kept as the first component. -/
def get_output_params {V E : Type} (h : Host V E) (stored_procedure : String)
    (output : List (String × Int)) (params : List (String × Int × V))
    (transaction : Option String) :
    List (Action V) × Except E (Option (List (String × V))) :=
  ((_execute_sp h stored_procedure "" transaction false params output
      true false false none false).1,
   (_execute_sp h stored_procedure "" transaction false params output
      true false false none false).2.map (fun result => result.output_params))

/-- Mirror of `check` (db.py): declare the single output parameter
`{'flag': system.db.BIT}`, fetch the output parameters, and return
`output_params['flag']` (the dictionary lookup of the flag's value). -/
def check {V E : Type} (h : Host V E) (stored_procedure : String)
    (params : List (String × Int × V)) :
    List (Action V) × Except E (Option V) :=
  ((get_output_params h stored_procedure [("flag", BIT)] params none).1,
   (get_output_params h stored_procedure [("flag", BIT)] params none).2.map
     (fun output_params => output_params.bind (fun m => m.lookup "flag")))

/-- Mirror of `execute_non_query` (db.py): invoke the orchestrator with the
caller's input parameters and transaction, requesting only the update
count, and return `result.update_count`. -/
def execute_non_query {V E : Type} (h : Host V E) (stored_procedure : String)
    (params : List (String × Int × V)) (transaction : Option String) :
    List (Action V) × Except E (Option Int) :=
  ((_execute_sp h stored_procedure "" transaction false params []
      false false false none true).1,
   (_execute_sp h stored_procedure "" transaction false params []
      false false false none true).2.map (fun result => result.update_count))

/-- Mirror of `get_data` (db.py): invoke the orchestrator with the caller's
input parameters, requesting only the result set, and return
`result.result_set`. -/
def get_data {V E : Type} (h : Host V E) (stored_procedure : String)
    (params : List (String × Int × V)) :
    List (Action V) × Except E (Option (Dataset V)) :=
  ((_execute_sp h stored_procedure "" none false params []
      false true false none false).1,
   (_execute_sp h stored_procedure "" none false params []
      false true false none false).2.map (fun result => result.result_set))

/-- Mirror of `get_return_value` (db.py): invoke the orchestrator with the
caller's input parameters, transaction and return type code, requesting
only the return value, and return `result.return_value`. -/
def get_return_value {V E : Type} (h : Host V E) (stored_procedure : String)
    (return_type_code : Int) (params : List (String × Int × V))
    (transaction : Option String) :
    List (Action V) × Except E (Option Int) :=
  ((_execute_sp h stored_procedure "" transaction false params []
      false false true (some return_type_code) false).1,
   (_execute_sp h stored_procedure "" transaction false params []
      false false true (some return_type_code) false).2.map
     (fun result => result.return_value))

/-- A concrete host on which every operation succeeds, with an empty
result set, for evaluating the wrapper on sample calls. -/
def okHost : Host Nat Nat :=
  ⟨fun _ _ _ _ => none, fun _ _ _ => none, fun _ _ => none, fun _ => none,
   none, fun _ => Except.ok 7, [], 5, 3⟩

/-- A concrete host whose input registration raises 42 on the parameter
named "b". -/
def failingInputHost : Host Nat Nat :=
  ⟨fun _ _ _ _ => none,
   fun n _ _ => if n = "b" then some 42 else none,
   fun _ _ => none, fun _ => none, none, fun _ => Except.ok 7, [], 5, 3⟩

/-- A concrete host whose output-value read-back raises 99 for every
name: the stored procedure produced no output values. -/
def missingOutHost : Host Nat Nat :=
  ⟨fun _ _ _ _ => none, fun _ _ _ => none, fun _ _ => none, fun _ => none,
   none, fun _ => Except.error 99, [], 5, 3⟩

end Incendium.Db

namespace Incendium.User

/-- A contact-info entry of the host's user object: a contact type (such
as "email") and a value. -/
structure ContactInfo where
  contactType : String
  value : String

/-- Abstract model of the host platform's user object: the attributes the
wrapper reads (`user.get(user.Username)`, first and last name, the
locale default, `getContactInfo()` and `getRoles()`). -/
structure PlatformUser where
  username : String
  firstName : String
  lastName : String
  locale : String
  contactInfo : List ContactInfo
  roles : List String

/-- Abstract model of the host platform's security and user APIs
(`system.security.getUsername`, `system.user.getUsers`,
`system.user.getUser`).  `getUser` yields `none` when the named source
does not contain the user. -/
structure UserHost where
  getUsername : String
  getUsers : String → List PlatformUser
  getUser : String → String → Option PlatformUser

/-- Mirror of `_User` (user.py): the read-only snapshot of four attributes
captured in `_User.__init__`. -/
structure _User where
  _username : String
  _first_name : String
  _last_name : String
  _locale : String
deriving DecidableEq

/-- Mirror of `_User.__init__`: capture username, first name, last name
and locale from the host's user object. -/
def _User.ofUser (user : PlatformUser) : _User :=
  ⟨user.username, user.firstName, user.lastName, user.locale⟩

/-- Mirror of `_User.get_first_name`. -/
def _User.get_first_name (self : _User) : String :=
  self._first_name

/-- Python's `sep.join(parts)`. -/
def py_str_join (sep : String) : List String → String
  | [] => ""
  | x :: xs => xs.foldl (fun acc y => acc ++ sep ++ y) x

/-- Mirror of `_User.get_full_name`: `' '.join([first_name, last_name])`. -/
def _User.get_full_name (self : _User) : String :=
  py_str_join " " [self._first_name, self._last_name]

/-- Mirror of `_User.get_locale`. -/
def _User.get_locale (self : _User) : String :=
  self._locale

/-- Mirror of `get_emails` (user.py): iterate all users of the source; for
each user keep the contact values whose type is "email"; add each kept
address to the running set when the role filter is empty (Python falsy) or
the owning user holds the filtered role.  The Python `set` is modelled as
a duplicate-free list built by membership-checking insertion (`set.add`);
the final `sorted(list(emails))` is an insertion sort. -/
def get_emails (h : UserHost) (user_source : String)
    (filter_role : String) : List String :=
  let emails : List String :=
    (h.getUsers user_source).foldl
      (fun acc user =>
        ((user.contactInfo.filter
              (fun ci => ci.contactType == "email")).map
            (fun ci => ci.value)).foldl
          (fun acc2 email =>
            if filter_role ≠ "" then
              if filter_role ∈ user.roles then acc2.insert email else acc2
            else acc2.insert email)
          acc)
      []
  emails.insertionSort (fun a b => a ≤ b)

/-- Mirror of `get_user` (user.py): read the authenticated username, try
the primary source when its name is truthy (non-empty), then try the
failover when no user was found and the failover name is truthy, and wrap
any found user.  "Not found" is the absent result `none`, not a
failure. -/
def get_user (h : UserHost) (user_source : String)
    (failover : Option String) : Option _User :=
  let _username := h.getUsername
  let user : Option PlatformUser :=
    if user_source ≠ "" then h.getUser user_source _username else none
  let user : Option PlatformUser :=
    match user, failover with
    | none, some f => if f ≠ "" then h.getUser f _username else none
    | u, _ => u
  user.map _User.ofUser

/-- A concrete user host with two users sharing one email address, a
user "jdoe" present only in the source named "primary", and "jdoe" as the
authenticated username. -/
def sampleUserHost : UserHost :=
  ⟨"jdoe",
   fun _ =>
     [⟨"jdoe", "John", "Doe", "en",
       [⟨"email", "shared@example.com"⟩, ⟨"sms", "5551234"⟩], ["operator"]⟩,
      ⟨"asmith", "Anna", "Smith", "de",
       [⟨"email", "shared@example.com"⟩, ⟨"email", "anna@example.com"⟩],
       ["admin"]⟩],
   fun source name =>
     if source = "primary" ∧ name = "jdoe" then
       some ⟨"jdoe", "John", "Doe", "en", [], []⟩
     else none⟩

/-- A host whose unnamed ("" -named) source would resolve the authenticated
user, and whose "backup" source resolves it too: used to exhibit that an
empty primary source name is never looked up. -/
def defaultSourceHost : UserHost :=
  ⟨"jdoe",
   fun _ => [],
   fun source _ =>
     if source = "" ∨ source = "backup" then
       some ⟨"jdoe", "John", "Doe", "en", [], []⟩
     else none⟩

end Incendium.User

namespace Incendium.Db

/-- When the input-registration loop raises no failure, its trace is one
registration per entry of the input map, in map order. -/
theorem regInputs_ok {V E : Type} (h : Host V E) (l : List (String × Int × V))
    (hok : (regInputs h l).2 = none) :
    (regInputs h l).1 = l.map (fun p => Action.regIn p.1 p.2.1 p.2.2) := by
  induction l with
  | nil => rfl
  | cons p rest ih =>
    obtain ⟨n, t, v⟩ := p
    cases hr : h.regIn n t v with
    | some e => simp [regInputs, hr] at hok
    | none =>
      simp only [regInputs, hr] at hok ⊢
      simpa using ih hok

/-- The input-registration trace is always a prefix of the full planned
input-registration sequence. -/
theorem regInputs_prefix_planned {V E : Type} (h : Host V E)
    (l : List (String × Int × V)) :
    (regInputs h l).1 <+: l.map (fun p => Action.regIn p.1 p.2.1 p.2.2) := by
  induction l with
  | nil => simp [regInputs]
  | cons p rest ih =>
    obtain ⟨n, t, v⟩ := p
    cases hr : h.regIn n t v with
    | some e => simp [regInputs, hr]
    | none =>
      simp only [regInputs, hr, List.map_cons]
      exact List.cons_prefix_cons.mpr ⟨rfl, ih⟩

/-- A failure of the input-registration loop is a failure the host raised
on one of the map's entries. -/
theorem regInputs_error {V E : Type} (h : Host V E)
    (l : List (String × Int × V)) (e : E)
    (herr : (regInputs h l).2 = some e) :
    ∃ p ∈ l, h.regIn p.1 p.2.1 p.2.2 = some e := by
  induction l with
  | nil => simp [regInputs] at herr
  | cons p rest ih =>
    obtain ⟨n, t, v⟩ := p
    cases hr : h.regIn n t v with
    | some e0 =>
      simp only [regInputs, hr] at herr
      cases herr
      exact ⟨(n, t, v), List.mem_cons_self _ _, hr⟩
    | none =>
      simp only [regInputs, hr] at herr
      obtain ⟨q, hq, hqe⟩ := ih herr
      exact ⟨q, List.mem_cons_of_mem _ hq, hqe⟩

/-- When the output-registration loop raises no failure, its trace is one
registration per declared output parameter, in map order. -/
theorem regOutputs_ok {V E : Type} (h : Host V E) (l : List (String × Int))
    (hok : (regOutputs h l).2 = none) :
    (regOutputs h l).1 = l.map (fun p => Action.regOut p.1 p.2) := by
  induction l with
  | nil => rfl
  | cons p rest ih =>
    obtain ⟨n, t⟩ := p
    cases hr : h.regOut n t with
    | some e => simp [regOutputs, hr] at hok
    | none =>
      simp only [regOutputs, hr] at hok ⊢
      simpa using ih hok

/-- The output-registration trace is always a prefix of the full planned
output-registration sequence. -/
theorem regOutputs_prefix_planned {V E : Type} (h : Host V E)
    (l : List (String × Int)) :
    (regOutputs h l).1 <+: l.map (fun p => Action.regOut p.1 p.2) := by
  induction l with
  | nil => simp [regOutputs]
  | cons p rest ih =>
    obtain ⟨n, t⟩ := p
    cases hr : h.regOut n t with
    | some e => simp [regOutputs, hr]
    | none =>
      simp only [regOutputs, hr, List.map_cons]
      exact List.cons_prefix_cons.mpr ⟨rfl, ih⟩

/-- A failure of the output-registration loop is a failure the host raised
on one of the declared output parameters. -/
theorem regOutputs_error {V E : Type} (h : Host V E)
    (l : List (String × Int)) (e : E)
    (herr : (regOutputs h l).2 = some e) :
    ∃ p ∈ l, h.regOut p.1 p.2 = some e := by
  induction l with
  | nil => simp [regOutputs] at herr
  | cons p rest ih =>
    obtain ⟨n, t⟩ := p
    cases hr : h.regOut n t with
    | some e0 =>
      simp only [regOutputs, hr] at herr
      cases herr
      exact ⟨(n, t), List.mem_cons_self _ _, hr⟩
    | none =>
      simp only [regOutputs, hr] at herr
      obtain ⟨q, hq, hqe⟩ := ih herr
      exact ⟨q, List.mem_cons_of_mem _ hq, hqe⟩

/-- A successful read-back produces a dictionary whose keys are exactly
the declared output-parameter names, in order. -/
theorem readOutParams_ok {V E : Type} (h : Host V E)
    (l : List (String × Int)) (m : List (String × V))
    (hok : readOutParams h l = Except.ok m) :
    m.map Prod.fst = l.map Prod.fst := by
  induction l generalizing m with
  | nil =>
    simp only [readOutParams] at hok
    cases hok
    rfl
  | cons p rest ih =>
    obtain ⟨n, t⟩ := p
    cases hr : h.outVal n with
    | error e => simp [readOutParams, hr] at hok
    | ok v =>
      simp only [readOutParams, hr] at hok
      cases hrest : readOutParams h rest with
      | error e => rw [hrest] at hok; cases hok
      | ok vs =>
        rw [hrest] at hok
        cases hok
        simpa using ih vs hrest

/-- A failure of the read-back loop is a failure the host raised while
looking up one of the declared output-parameter names. -/
theorem readOutParams_error {V E : Type} (h : Host V E)
    (l : List (String × Int)) (e : E)
    (herr : readOutParams h l = Except.error e) :
    ∃ p ∈ l, h.outVal p.1 = Except.error e := by
  induction l with
  | nil => simp [readOutParams] at herr
  | cons p rest ih =>
    obtain ⟨n, t⟩ := p
    cases hr : h.outVal n with
    | error e0 =>
      simp only [readOutParams, hr] at herr
      cases herr
      exact ⟨(n, t), List.mem_cons_self _ _, hr⟩
    | ok v =>
      simp only [readOutParams, hr] at herr
      cases hrest : readOutParams h rest with
      | error e0 =>
        rw [hrest] at herr
        cases herr
        obtain ⟨q, hq, hqe⟩ := ih hrest
        exact ⟨q, List.mem_cons_of_mem _ hq, hqe⟩
      | ok vs => rw [hrest] at herr; cases herr

/-- A failure `e` raised by the host itself somewhere in this invocation's
call sequence: at call creation, at one of the input or output
registrations, at return-parameter registration (only when requested), at
execution, or while reading back a declared output value. -/
def hostRaised {V E : Type} (h : Host V E) (sp db : String)
    (tx : Option String) (sa : Bool) (inp : List (String × Int × V))
    (outp : List (String × Int)) (grv : Bool) (rtc : Option Int)
    (e : E) : Prop :=
  h.createCall sp db tx sa = some e ∨
  (∃ p ∈ inp, h.regIn p.1 p.2.1 p.2.2 = some e) ∨
  (∃ p ∈ outp, h.regOut p.1 p.2 = some e) ∨
  (grv = true ∧ h.regRet rtc = some e) ∨
  h.execC = some e ∨
  (∃ p ∈ outp, h.outVal p.1 = Except.error e)

/-- Master case analysis for `_execute_sp`: on success the trace is exactly
the planned sequence and the bundle holds exactly the requested facets; on
failure the reported error is one the host raised; and in every case the
trace is a prefix of the planned sequence (each call-object operation is
attempted at most once, in order). -/
theorem execute_sp_cases {V E : Type} (h : Host V E) (sp db : String)
    (tx : Option String) (sa : Bool) (inp : List (String × Int × V))
    (outp : List (String × Int)) (gop grs grv : Bool) (rtc : Option Int)
    (guc : Bool) :
    (∀ r, (_execute_sp h sp db tx sa inp outp gop grs grv rtc guc).2 =
        Except.ok r →
      (_execute_sp h sp db tx sa inp outp gop grs grv rtc guc).1 =
        plannedActions inp outp grv rtc ∧
      ∃ m, readOutParams h outp = Except.ok m ∧
        r = ⟨if gop then some m else none,
             if grs then some h.resSet else none,
             if grv then some h.retVal else none,
             if guc then some h.updCount else none⟩) ∧
    (∀ e, (_execute_sp h sp db tx sa inp outp gop grs grv rtc guc).2 =
        Except.error e →
      hostRaised h sp db tx sa inp outp grv rtc e) ∧
    (_execute_sp h sp db tx sa inp outp gop grs grv rtc guc).1 <+:
      plannedActions inp outp grv rtc := by
  cases hc : h.createCall sp db tx sa with
  | some e =>
    refine ⟨?_, ?_, ?_⟩
    · intro r hr
      simp only [_execute_sp, hc] at hr
      exact Except.noConfusion hr
    · intro e' he'
      simp only [_execute_sp, hc, Except.error.injEq] at he'
      subst he'
      exact Or.inl hc
    · simp only [_execute_sp, hc]
      exact List.nil_prefix
  | none =>
    cases hin : (regInputs h inp).2 with
    | some e =>
      refine ⟨?_, ?_, ?_⟩
      · intro r hr
        simp only [_execute_sp, hc, hin] at hr
        exact Except.noConfusion hr
      · intro e' he'
        simp only [_execute_sp, hc, hin, Except.error.injEq] at he'
        subst he'
        exact Or.inr (Or.inl (regInputs_error h inp e hin))
      · simp only [_execute_sp, hc, hin, plannedActions]
        refine (regInputs_prefix_planned h inp).trans ?_
        simp only [List.append_assoc]
        exact List.prefix_append _ _
    | none =>
      have hIn1 : (regInputs h inp).1 =
          inp.map (fun p => Action.regIn p.1 p.2.1 p.2.2) :=
        regInputs_ok h inp hin
      cases hout : (regOutputs h outp).2 with
      | some e =>
        refine ⟨?_, ?_, ?_⟩
        · intro r hr
          simp only [_execute_sp, hc, hin, hout] at hr
          exact Except.noConfusion hr
        · intro e' he'
          simp only [_execute_sp, hc, hin, hout, Except.error.injEq] at he'
          subst he'
          exact Or.inr (Or.inr (Or.inl (regOutputs_error h outp e hout)))
        · simp only [_execute_sp, hc, hin, hout, plannedActions, hIn1]
          simp only [List.append_assoc]
          refine (List.prefix_append_right_inj _).mpr ?_
          refine (regOutputs_prefix_planned h outp).trans ?_
          exact List.prefix_append _ _
      | none =>
        have hOut1 : (regOutputs h outp).1 =
            outp.map (fun p => Action.regOut p.1 p.2) :=
          regOutputs_ok h outp hout
        cases hgrv : grv with
        | false =>
          cases hex : h.execC with
          | some e =>
            refine ⟨?_, ?_, ?_⟩
            · intro r hr
              simp only [_execute_sp, hc, hin, hout, hgrv, hex,
                if_neg Bool.false_ne_true] at hr
              exact Except.noConfusion hr
            · intro e' he'
              simp only [_execute_sp, hc, hin, hout, hgrv, hex,
                if_neg Bool.false_ne_true, Except.error.injEq] at he'
              subst he'
              exact Or.inr (Or.inr (Or.inr (Or.inr (Or.inl hex))))
            · simp only [_execute_sp, hc, hin, hout, hgrv, hex,
                if_neg Bool.false_ne_true, plannedActions, hIn1, hOut1]
              exact List.prefix_rfl
          | none =>
            cases hro : readOutParams h outp with
            | error e =>
              refine ⟨?_, ?_, ?_⟩
              · intro r hr
                simp only [_execute_sp, hc, hin, hout, hgrv, hex, hro,
                  if_neg Bool.false_ne_true] at hr
                exact Except.noConfusion hr
              · intro e' he'
                simp only [_execute_sp, hc, hin, hout, hgrv, hex, hro,
                  if_neg Bool.false_ne_true, Except.error.injEq] at he'
                subst he'
                exact Or.inr (Or.inr (Or.inr (Or.inr (Or.inr
                  (readOutParams_error h outp e hro)))))
              · simp only [_execute_sp, hc, hin, hout, hgrv, hex, hro,
                  if_neg Bool.false_ne_true, plannedActions, hIn1, hOut1]
                exact List.prefix_rfl
            | ok m =>
              refine ⟨?_, ?_, ?_⟩
              · intro r hr
                simp only [_execute_sp, hc, hin, hout, hgrv, hex, hro,
                  if_neg Bool.false_ne_true, Except.ok.injEq] at hr
                subst hr
                refine ⟨?_, m, rfl, rfl⟩
                simp only [_execute_sp, hc, hin, hout, hgrv, hex, hro,
                  if_neg Bool.false_ne_true, plannedActions, hIn1, hOut1]
              · intro e' he'
                simp only [_execute_sp, hc, hin, hout, hgrv, hex, hro,
                  if_neg Bool.false_ne_true] at he'
                exact Except.noConfusion he'
              · simp only [_execute_sp, hc, hin, hout, hgrv, hex, hro,
                  if_neg Bool.false_ne_true, plannedActions, hIn1, hOut1]
                exact List.prefix_rfl
        | true =>
          cases hrr : h.regRet rtc with
          | some e =>
            refine ⟨?_, ?_, ?_⟩
            · intro r hr
              simp only [_execute_sp, hc, hin, hout, hgrv, hrr, if_true] at hr
              exact Except.noConfusion hr
            · intro e' he'
              simp only [_execute_sp, hc, hin, hout, hgrv, hrr, if_true,
                Except.error.injEq] at he'
              subst he'
              exact Or.inr (Or.inr (Or.inr (Or.inl ⟨rfl, hrr⟩)))
            · simp only [_execute_sp, hc, hin, hout, hgrv, hrr, if_true,
                plannedActions, hIn1, hOut1]
              simp only [List.append_assoc]
              refine (List.prefix_append_right_inj _).mpr ?_
              refine (List.prefix_append_right_inj _).mpr ?_
              exact List.prefix_append _ _
          | none =>
            cases hex : h.execC with
            | some e =>
              refine ⟨?_, ?_, ?_⟩
              · intro r hr
                simp only [_execute_sp, hc, hin, hout, hgrv, hrr, hex,
                  if_true] at hr
                exact Except.noConfusion hr
              · intro e' he'
                simp only [_execute_sp, hc, hin, hout, hgrv, hrr, hex,
                  if_true, Except.error.injEq] at he'
                subst he'
                exact Or.inr (Or.inr (Or.inr (Or.inr (Or.inl hex))))
              · simp only [_execute_sp, hc, hin, hout, hgrv, hrr, hex,
                  if_true, plannedActions, hIn1, hOut1]
                exact List.prefix_rfl
            | none =>
              cases hro : readOutParams h outp with
              | error e =>
                refine ⟨?_, ?_, ?_⟩
                · intro r hr
                  simp only [_execute_sp, hc, hin, hout, hgrv, hrr, hex, hro,
                    if_true] at hr
                  exact Except.noConfusion hr
                · intro e' he'
                  simp only [_execute_sp, hc, hin, hout, hgrv, hrr, hex, hro,
                    if_true, Except.error.injEq] at he'
                  subst he'
                  exact Or.inr (Or.inr (Or.inr (Or.inr (Or.inr
                    (readOutParams_error h outp e hro)))))
                · simp only [_execute_sp, hc, hin, hout, hgrv, hrr, hex, hro,
                    if_true, plannedActions, hIn1, hOut1]
                  exact List.prefix_rfl
              | ok m =>
                refine ⟨?_, ?_, ?_⟩
                · intro r hr
                  simp only [_execute_sp, hc, hin, hout, hgrv, hrr, hex, hro,
                    if_true, Except.ok.injEq] at hr
                  subst hr
                  refine ⟨?_, m, rfl, rfl⟩
                  simp only [_execute_sp, hc, hin, hout, hgrv, hrr, hex, hro,
                    if_true, plannedActions, hIn1, hOut1]
                · intro e' he'
                  simp only [_execute_sp, hc, hin, hout, hgrv, hrr, hex, hro,
                    if_true] at he'
                  exact Except.noConfusion he'
                · simp only [_execute_sp, hc, hin, hout, hgrv, hrr, hex, hro,
                    if_true, plannedActions, hIn1, hOut1]
                  exact List.prefix_rfl

/-- C1: every invocation of `_execute_sp` that completes registers, before
execution, exactly one input parameter per entry of the input map in the
map's iteration order with its given type tag and value, then each
declared output parameter with its name and type tag, then — iff the
return value was requested — a return parameter typed by the given return
type code, and only then performs exactly one execution. -/
theorem execute_sp_registration_order {V E : Type} (h : Host V E)
    (sp db : String) (tx : Option String) (sa : Bool)
    (inp : List (String × Int × V)) (outp : List (String × Int))
    (gop grs grv : Bool) (rtc : Option Int) (guc : Bool) (r : _Result V)
    (hok : (_execute_sp h sp db tx sa inp outp gop grs grv rtc guc).2 =
      Except.ok r) :
    (_execute_sp h sp db tx sa inp outp gop grs grv rtc guc).1 =
      inp.map (fun p => Action.regIn p.1 p.2.1 p.2.2) ++
      outp.map (fun p => Action.regOut p.1 p.2) ++
      (if grv then [Action.regRet rtc] else []) ++
      [Action.exec] ∧
    ((_execute_sp h sp db tx sa inp outp gop grs grv rtc guc).1.countP
      Action.isExec) = 1 := by
  obtain ⟨hfst, -⟩ :=
    (execute_sp_cases h sp db tx sa inp outp gop grs grv rtc guc).1 r hok
  rw [plannedActions] at hfst
  refine ⟨hfst, ?_⟩
  rw [hfst]
  simp only [List.countP_append]
  have h1 : (inp.map (fun p => Action.regIn p.1 p.2.1 p.2.2)).countP
      (Action.isExec (V := V)) = 0 := by
    rw [List.countP_eq_zero]
    intro a ha
    obtain ⟨p, -, rfl⟩ := List.mem_map.mp ha
    simp [Action.isExec]
  have h2 : (outp.map (fun p => Action.regOut p.1 p.2)).countP
      (Action.isExec (V := V)) = 0 := by
    rw [List.countP_eq_zero]
    intro a ha
    obtain ⟨p, -, rfl⟩ := List.mem_map.mp ha
    simp [Action.isExec]
  have h3 : ((if grv then [Action.regRet rtc] else []) :
      List (Action V)).countP Action.isExec = 0 := by
    cases grv <;> simp [List.countP_cons, Action.isExec]
  rw [h1, h2, h3]
  simp [List.countP_cons, Action.isExec]

/-- Witness for C1: a concrete successful invocation, with two input
parameters, one output parameter and a requested return value, whose
trace is the planned sequence with a single trailing execution. -/
theorem execute_sp_registration_order_witness :
    (_execute_sp okHost "proc" "" none false
        [("a", 1, (10 : Nat)), ("b", 2, 20)] [("o", 4)]
        true false true (some 4) true).1 =
      [Action.regIn "a" 1 10, Action.regIn "b" 2 20, Action.regOut "o" 4,
       Action.regRet (some 4), Action.exec] ∧
    ((_execute_sp okHost "proc" "" none false
        [("a", 1, (10 : Nat)), ("b", 2, 20)] [("o", 4)]
        true false true (some 4) true).1.countP Action.isExec) = 1 := by
  have h := execute_sp_registration_order okHost "proc" "" none false
    [("a", 1, (10 : Nat)), ("b", 2, 20)] [("o", 4)] true false true (some 4)
    true ⟨some [("o", 7)], none, some 5, some 3⟩ (by rfl)
  simpa using h

/-- C2: a completed invocation of `_execute_sp` populates a facet of the
result bundle iff its flag was set, and a populated output-parameter map
holds exactly the keys of the caller-declared output-parameter map. -/
theorem execute_sp_facets {V E : Type} (h : Host V E)
    (sp db : String) (tx : Option String) (sa : Bool)
    (inp : List (String × Int × V)) (outp : List (String × Int))
    (gop grs grv : Bool) (rtc : Option Int) (guc : Bool) (r : _Result V)
    (hok : (_execute_sp h sp db tx sa inp outp gop grs grv rtc guc).2 =
      Except.ok r) :
    r.output_params.isSome = gop ∧ r.result_set.isSome = grs ∧
    r.return_value.isSome = grv ∧ r.update_count.isSome = guc ∧
    ∀ m, r.output_params = some m → m.map Prod.fst = outp.map Prod.fst := by
  obtain ⟨-, m, hm, rfl⟩ :=
    (execute_sp_cases h sp db tx sa inp outp gop grs grv rtc guc).1 r hok
  refine ⟨?_, ?_, ?_, ?_, ?_⟩
  · cases gop <;> rfl
  · cases grs <;> rfl
  · cases grv <;> rfl
  · cases guc <;> rfl
  · intro m2 hm2
    cases gop with
    | false => exact Option.noConfusion hm2
    | true =>
      simp only [if_true] at hm2
      cases hm2
      exact readOutParams_ok h outp m hm

/-- Witness for C2: on a concrete successful invocation requesting only
output parameters and the update count, exactly those two facets are
populated and the output map has exactly the declared key. -/
theorem execute_sp_facets_witness :
    (⟨some [("o", 7)], none, none, some 3⟩ :
        _Result Nat).output_params.isSome = true ∧
    (⟨some [("o", 7)], none, none, some 3⟩ :
        _Result Nat).result_set.isSome = false ∧
    (⟨some [("o", 7)], none, none, some 3⟩ :
        _Result Nat).return_value.isSome = false ∧
    (⟨some [("o", 7)], none, none, some 3⟩ :
        _Result Nat).update_count.isSome = true ∧
    ∀ m, (⟨some [("o", 7)], none, none, some 3⟩ :
        _Result Nat).output_params = some m →
      m.map Prod.fst = [("o", 4)].map (Prod.fst (β := Int)) := by
  exact execute_sp_facets okHost "proc" "" none false
    [("a", 1, (10 : Nat))] [("o", 4)] true false false none true
    ⟨some [("o", 7)], none, none, some 3⟩ (by rfl)

/-- C5: any failure raised during call creation, parameter registration,
execution or output read-back of `_execute_sp` propagates unchanged to the
caller: a failing run reports an error the host itself raised, the action
trace is always a prefix of the planned single-pass sequence (so no
operation is retried and nothing runs past the failure), and a completed
run returns a bundle fully populated for the requested facets. -/
theorem execute_sp_failure_propagation {V E : Type} (h : Host V E)
    (sp db : String) (tx : Option String) (sa : Bool)
    (inp : List (String × Int × V)) (outp : List (String × Int))
    (gop grs grv : Bool) (rtc : Option Int) (guc : Bool) :
    (∀ e, (_execute_sp h sp db tx sa inp outp gop grs grv rtc guc).2 =
        Except.error e → hostRaised h sp db tx sa inp outp grv rtc e) ∧
    (_execute_sp h sp db tx sa inp outp gop grs grv rtc guc).1 <+:
      plannedActions inp outp grv rtc ∧
    (∀ r, (_execute_sp h sp db tx sa inp outp gop grs grv rtc guc).2 =
        Except.ok r →
      r.output_params.isSome = gop ∧ r.result_set.isSome = grs ∧
      r.return_value.isSome = grv ∧ r.update_count.isSome = guc) := by
  obtain ⟨hok, herr, hpre⟩ :=
    execute_sp_cases h sp db tx sa inp outp gop grs grv rtc guc
  refine ⟨herr, hpre, ?_⟩
  intro r hr
  obtain ⟨-, m, -, rfl⟩ := hok r hr
  refine ⟨?_, ?_, ?_, ?_⟩
  · cases gop <;> rfl
  · cases grs <;> rfl
  · cases grv <;> rfl
  · cases guc <;> rfl

/-- Witness for C5: on a host whose registration of input "b" raises 42,
the orchestrator reports exactly that host failure, and its trace — which
stopped at "b" — is a prefix of the planned sequence. -/
theorem execute_sp_failure_propagation_witness :
    hostRaised failingInputHost "proc" "" none false
      [("a", 1, (10 : Nat)), ("b", 2, 20)] [] false none 42 ∧
    (_execute_sp failingInputHost "proc" "" none false
        [("a", 1, (10 : Nat)), ("b", 2, 20)] [] false false false none
        true).1 <+:
      plannedActions [("a", 1, (10 : Nat)), ("b", 2, 20)] [] false none := by
  have h := execute_sp_failure_propagation failingInputHost "proc" "" none
    false [("a", 1, (10 : Nat)), ("b", 2, 20)] [] false false false none true
  exact ⟨h.1 42 (by rfl), h.2.1⟩

/-- C6: `execute_non_query` requests only the update-count facet from the
orchestrator and, when the call completes, returns exactly the
modified-row count the host call reports — the host's -1 sentinel for
"not applicable" included, since the returned value equals the host count
whatever it is. -/
theorem execute_non_query_update_count {V E : Type} (h : Host V E)
    (sp : String) (params : List (String × Int × V)) (tx : Option String)
    (r : _Result V)
    (hok : (_execute_sp h sp "" tx false params [] false false false none
        true).2 = Except.ok r) :
    (execute_non_query h sp params tx).2 = Except.ok (some h.updCount) ∧
    r.update_count = some h.updCount ∧ r.output_params = none ∧
    r.result_set = none ∧ r.return_value = none := by
  obtain ⟨-, m, -, rfl⟩ :=
    (execute_sp_cases h sp "" tx false params [] false false false none
      true).1 r hok
  refine ⟨?_, rfl, rfl, rfl, rfl⟩
  simp only [execute_non_query]
  rw [hok]
  rfl

/-- Witness for C6: a concrete completed non-query call returns the host's
reported count 3, and only the update-count facet is populated. -/
theorem execute_non_query_update_count_witness :
    (execute_non_query okHost "proc" [("a", 1, (10 : Nat))] none).2 =
      Except.ok (some 3) ∧
    (⟨none, none, none, some 3⟩ : _Result Nat).update_count = some 3 ∧
    (⟨none, none, none, some 3⟩ : _Result Nat).output_params = none ∧
    (⟨none, none, none, some 3⟩ : _Result Nat).result_set = none ∧
    (⟨none, none, none, some 3⟩ : _Result Nat).return_value = none := by
  exact execute_non_query_update_count okHost "proc" [("a", 1, (10 : Nat))]
    none ⟨none, none, none, some 3⟩ (by rfl)

/-- C7: when the stored procedure produces no rows, a completed `get_data`
call returns an empty result set — a dataset with zero rows — and never
the absent value `none`. -/
theorem get_data_empty_result_set {V E : Type} (h : Host V E)
    (sp : String) (params : List (String × Int × V)) (r : _Result V)
    (hok : (_execute_sp h sp "" none false params [] false true false none
        false).2 = Except.ok r)
    (hempty : h.resSet = []) :
    ∃ ds : Dataset V, (get_data h sp params).2 = Except.ok (some ds) ∧
      ds.length = 0 := by
  obtain ⟨-, m, -, rfl⟩ :=
    (execute_sp_cases h sp "" none false params [] false true false none
      false).1 r hok
  refine ⟨h.resSet, ?_, ?_⟩
  · simp only [get_data]
    rw [hok]
    rfl
  · rw [hempty]
    rfl

/-- Witness for C7: on a host reporting zero result rows, `get_data`
returns a present, zero-row dataset. -/
theorem get_data_empty_result_set_witness :
    ∃ ds : Dataset Nat,
      (get_data okHost "proc" [("a", 1, (10 : Nat))]).2 =
        Except.ok (some ds) ∧ ds.length = 0 := by
  exact get_data_empty_result_set okHost "proc" [("a", 1, (10 : Nat))]
    ⟨none, some [], none, none⟩ (by rfl) (by rfl)

/-- C8: `check` invokes the orchestrator with exactly one declared output
parameter — named "flag" and typed `system.db.BIT` — and returns that
output parameter's value directly; if the host does not produce the
expected "flag" output value, `check` fails with the host's error rather
than returning a value. -/
theorem check_flag {V E : Type} (h : Host V E) (sp : String)
    (params : List (String × Int × V)) :
    (∀ r, (_execute_sp h sp "" none false params [("flag", BIT)] true false
        false none false).2 = Except.ok r →
      (check h sp params).1.filter Action.isRegOut =
          [Action.regOut "flag" BIT] ∧
      ∃ v, h.outVal "flag" = Except.ok v ∧
        (check h sp params).2 = Except.ok (some v)) ∧
    (∀ e, (_execute_sp h sp "" none false params [("flag", BIT)] true false
        false none false).2 = Except.error e →
      (check h sp params).2 = Except.error e) := by
  constructor
  · intro r hr
    obtain ⟨hfst, m, hm, rfl⟩ :=
      (execute_sp_cases h sp "" none false params [("flag", BIT)] true false
        false none false).1 r hr
    cases hov : h.outVal "flag" with
    | error e => simp [readOutParams, hov] at hm
    | ok v =>
      simp only [readOutParams, hov] at hm
      cases hm
      constructor
      · show (_execute_sp h sp "" none false params [("flag", BIT)] true
            false false none false).1.filter Action.isRegOut =
          [Action.regOut "flag" BIT]
        rw [hfst, plannedActions]
        have hnil : ∀ (l : List (String × Int × V)),
            (l.map (fun p => Action.regIn p.1 p.2.1 p.2.2)).filter
              Action.isRegOut = [] := by
          intro l
          induction l with
          | nil => rfl
          | cons a as ih =>
            rw [List.map_cons, List.filter_cons_of_neg, ih]
            simp [Action.isRegOut]
        simp [List.filter_append, hnil, Action.isRegOut]
      · refine ⟨v, rfl, ?_⟩
        simp only [check, get_output_params]
        rw [hr]
        rfl
  · intro e he
    simp only [check, get_output_params]
    rw [he]
    rfl

/-- Witness for C8: a successful `check` on a concrete host declares
exactly the BIT-typed "flag" output and returns its value 7; on a host
that cannot produce the output value, `check` propagates the failure
99. -/
theorem check_flag_witness :
    (check okHost "proc" [("a", 1, (10 : Nat))]).1.filter Action.isRegOut =
      [Action.regOut "flag" BIT] ∧
    (check okHost "proc" [("a", 1, (10 : Nat))]).2 = Except.ok (some 7) ∧
    (check missingOutHost "proc" [("a", 1, (10 : Nat))]).2 =
      Except.error 99 := by
  obtain ⟨h1, v, hv, h2⟩ :=
    (check_flag okHost "proc" [("a", 1, (10 : Nat))]).1
      ⟨some [("flag", 7)], none, none, none⟩ (by rfl)
  have hv7 : (7 : Nat) = v := by injection hv
  subst hv7
  refine ⟨h1, h2, ?_⟩
  exact (check_flag missingOutHost "proc" [("a", 1, (10 : Nat))]).2 99
    (by rfl)

end Incendium.Db

namespace Incendium.User

/-- Membership in a fold that conditionally set-inserts each element of a
list: an element is in the result iff it was already in the accumulator,
or the condition holds and it is in the list. -/
theorem foldl_set_add_mem (c : Prop) [Decidable c] (l acc : List String)
    (x : String) :
    x ∈ l.foldl (fun a e => if c then a.insert e else a) acc ↔
      x ∈ acc ∨ (c ∧ x ∈ l) := by
  by_cases hc : c
  · simp only [if_pos hc]
    induction l generalizing acc with
    | nil => simp
    | cons y ys ih =>
      rw [List.foldl_cons, ih]
      simp only [List.mem_insert_iff, List.mem_cons, hc, true_and]
      tauto
  · simp only [if_neg hc]
    induction l generalizing acc with
    | nil => simp [hc]
    | cons y ys ih =>
      rw [List.foldl_cons, ih]
      simp [hc]

/-- A fold that conditionally set-inserts preserves duplicate-freeness of
the accumulator. -/
theorem foldl_set_add_nodup (c : Prop) [Decidable c] :
    ∀ (l acc : List String), acc.Nodup →
      (l.foldl (fun a e => if c then a.insert e else a) acc).Nodup
  | [], _, hacc => hacc
  | y :: ys, acc, hacc => by
    simp only [List.foldl_cons]
    by_cases hc : c
    · rw [if_pos hc]
      exact foldl_set_add_nodup c ys _ hacc.insert
    · rw [if_neg hc]
      exact foldl_set_add_nodup c ys _ hacc

/-- The per-user insertion loop of `get_emails` adds an address exactly
when the role filter is empty (Python falsy) or the user holds the role:
the two nested conditionals collapse to a single guard. -/
theorem inner_fold_eq (fr : String) (roles : List String)
    (l acc : List String) :
    l.foldl (fun acc2 email =>
      if fr ≠ "" then
        if fr ∈ roles then acc2.insert email else acc2
      else acc2.insert email) acc =
    l.foldl (fun acc2 email =>
      if fr = "" ∨ fr ∈ roles then acc2.insert email else acc2) acc := by
  have hfe : (fun (acc2 : List String) (email : String) =>
      if fr ≠ "" then
        if fr ∈ roles then acc2.insert email else acc2
      else acc2.insert email) =
      fun acc2 email =>
        if fr = "" ∨ fr ∈ roles then acc2.insert email else acc2 := by
    funext acc2 email
    by_cases h1 : fr = "" <;> by_cases h2 : fr ∈ roles <;> simp [h1, h2]
  rw [hfe]

/-- Membership in the user loop of `get_emails`: an address is collected
iff some user of the source passes the role guard and owns an "email"
contact entry with that value. -/
theorem get_emails_fold_mem (fr : String) (users : List PlatformUser)
    (acc : List String) (x : String) :
    x ∈ users.foldl
        (fun acc user =>
          ((user.contactInfo.filter
                (fun ci => ci.contactType == "email")).map
              (fun ci => ci.value)).foldl
            (fun acc2 email =>
              if fr ≠ "" then
                if fr ∈ user.roles then acc2.insert email else acc2
              else acc2.insert email)
            acc)
        acc ↔
      x ∈ acc ∨ ∃ u ∈ users, (fr = "" ∨ fr ∈ u.roles) ∧
        ∃ ci ∈ u.contactInfo, ci.contactType = "email" ∧ ci.value = x := by
  induction users generalizing acc with
  | nil => simp
  | cons u us ih =>
    rw [List.foldl_cons, ih, inner_fold_eq, foldl_set_add_mem]
    simp only [List.mem_map, List.mem_filter, beq_iff_eq, List.mem_cons]
    constructor
    · rintro (((hx | ⟨hcond, ci, ⟨hci, hty⟩, hval⟩) | ⟨u2, hu2, h2⟩))
      · exact Or.inl hx
      · exact Or.inr ⟨u, Or.inl rfl, hcond, ci, hci, hty, hval⟩
      · exact Or.inr ⟨u2, Or.inr hu2, h2⟩
    · rintro (hx | ⟨u2, (rfl | hu2), hcond, ci, hci, hty, hval⟩)
      · exact Or.inl (Or.inl hx)
      · exact Or.inl (Or.inr ⟨hcond, ci, ⟨hci, hty⟩, hval⟩)
      · exact Or.inr ⟨u2, hu2, hcond, ci, hci, hty, hval⟩

/-- The user loop of `get_emails` preserves duplicate-freeness. -/
theorem get_emails_fold_nodup (fr : String) (users : List PlatformUser) :
    ∀ (acc : List String), acc.Nodup →
      (users.foldl
        (fun acc user =>
          ((user.contactInfo.filter
                (fun ci => ci.contactType == "email")).map
              (fun ci => ci.value)).foldl
            (fun acc2 email =>
              if fr ≠ "" then
                if fr ∈ user.roles then acc2.insert email else acc2
              else acc2.insert email)
            acc)
        acc).Nodup := by
  induction users with
  | nil => exact fun _ hacc => hacc
  | cons u us ih =>
    intro acc hacc
    rw [List.foldl_cons]
    refine ih _ ?_
    rw [inner_fold_eq]
    exact foldl_set_add_nodup _ _ _ hacc

/-- C9: an identity view constructed from a user whose first name is `f`
and last name is `l` reports the full name `f`, one space character, `l`,
in that order. -/
theorem get_full_name_spec (pu : PlatformUser) :
    (_User.ofUser pu).get_full_name = pu.firstName ++ " " ++ pu.lastName :=
  rfl

/-- C3: `get_user` with a non-empty primary source returns the identity
view when the authenticated username resolves there; returns the failover
source's result (mapped to an identity view) when the primary misses and a
truthy failover name is given; and returns the absent value `none` when
both miss — "not found" is an ordinary result, not a failure, since
`get_user` is total. -/
theorem get_user_spec (h : UserHost) (user_source : String)
    (failover : Option String) (u : PlatformUser) (f : String)
    (hsrc : user_source ≠ "") :
    (h.getUser user_source h.getUsername = some u →
      get_user h user_source failover = some (_User.ofUser u)) ∧
    (h.getUser user_source h.getUsername = none → failover = some f →
      f ≠ "" →
      get_user h user_source failover =
        (h.getUser f h.getUsername).map _User.ofUser) ∧
    (h.getUser user_source h.getUsername = none →
      (∀ g, failover = some g → h.getUser g h.getUsername = none) →
      get_user h user_source failover = none) := by
  refine ⟨?_, ?_, ?_⟩
  · intro hfound
    simp [get_user, hsrc, hfound]
  · intro hmiss hfo hf
    subst hfo
    simp [get_user, hsrc, hmiss, hf]
  · intro hmiss hnone
    cases hfo : failover with
    | none => simp [get_user, hsrc, hmiss]
    | some g =>
      by_cases hg : g = ""
      · subst hg
        simp [get_user, hsrc, hmiss]
      · simp [get_user, hsrc, hmiss, hg, hnone g hfo]

/-- Witness for C3: on a concrete host where the authenticated user "jdoe"
is absent from the source "other" but present in the failover source
"primary", `get_user` returns the identity view from the failover. -/
theorem get_user_spec_witness :
    get_user sampleUserHost "other" (some "primary") =
      some (⟨"jdoe", "John", "Doe", "en"⟩ : _User) := by
  have h := (get_user_spec sampleUserHost "other" (some "primary")
    ⟨"", "", "", "", [], []⟩ "primary" (by decide)).2.1 (by rfl) rfl
    (by decide)
  simpa using h

/-- C10: with an empty (falsy) primary source name, `get_user` skips the
primary lookup entirely — the result below holds for every host, including
hosts whose "" -named source would resolve the user — and is determined by
the failover alone: the failover's mapped result when a truthy failover
name is given, `none` when the failover is absent or its name is empty. -/
theorem get_user_empty_source (h : UserHost) (failover : Option String)
    (f : String) :
    (failover = some f → f ≠ "" →
      get_user h "" failover =
        (h.getUser f h.getUsername).map _User.ofUser) ∧
    (failover = none → get_user h "" failover = none) ∧
    (failover = some "" → get_user h "" failover = none) := by
  refine ⟨?_, ?_, ?_⟩
  · intro hfo hf
    subst hfo
    simp [get_user, hf]
  · intro hfo
    subst hfo
    simp [get_user]
  · intro hfo
    subst hfo
    simp [get_user]

/-- Witness for C10: on a host whose "" -named source would resolve the
user, `get_user` with an empty primary source and no failover still
returns `none` (the default source is never consulted), while a truthy
failover is consulted and returned. -/
theorem get_user_empty_source_witness :
    get_user defaultSourceHost "" none = none ∧
    get_user defaultSourceHost "" (some "backup") =
      some (⟨"jdoe", "John", "Doe", "en"⟩ : _User) := by
  constructor
  · exact (get_user_empty_source defaultSourceHost none "x").2.1 rfl
  · have h := (get_user_empty_source defaultSourceHost (some "backup")
      "backup").1 rfl (by decide)
    simpa using h

/-- C4: `get_emails` returns a sorted, duplicate-free list; with an empty
role filter an address is listed iff some user of the source owns an
"email" contact entry with that value (so two users sharing an address
contribute it once), and with a role filter iff such a user additionally
holds the filtered role. -/
theorem get_emails_spec (h : UserHost) (user_source : String)
    (filter_role : String) (x : String) :
    List.Sorted (fun a b : String => a ≤ b)
      (get_emails h user_source filter_role) ∧
    (get_emails h user_source filter_role).Nodup ∧
    (filter_role = "" →
      (x ∈ get_emails h user_source filter_role ↔
        ∃ u ∈ h.getUsers user_source, ∃ ci ∈ u.contactInfo,
          ci.contactType = "email" ∧ ci.value = x)) ∧
    (filter_role ≠ "" →
      (x ∈ get_emails h user_source filter_role ↔
        ∃ u ∈ h.getUsers user_source, filter_role ∈ u.roles ∧
          ∃ ci ∈ u.contactInfo, ci.contactType = "email" ∧ ci.value = x)) := by
  refine ⟨?_, ?_, ?_, ?_⟩
  · exact List.sorted_insertionSort _ _
  · simp only [get_emails]
    refine (List.perm_insertionSort _ _).nodup_iff.mpr ?_
    exact get_emails_fold_nodup filter_role (h.getUsers user_source) []
      List.nodup_nil
  · intro hfr
    subst hfr
    simp only [get_emails, List.mem_insertionSort]
    rw [get_emails_fold_mem]
    simp
  · intro hfr
    simp only [get_emails, List.mem_insertionSort]
    rw [get_emails_fold_mem]
    simp [hfr]

/-- Witness for C4: on a concrete source where two users share an address,
the shared address is listed (once, by duplicate-freeness), and an address
whose only owner lacks the filtered role is excluded under that filter. -/
theorem get_emails_spec_witness :
    "shared@example.com" ∈ get_emails sampleUserHost "src" "" ∧
    (get_emails sampleUserHost "src" "").Nodup ∧
    "anna@example.com" ∉ get_emails sampleUserHost "src" "operator" := by
  refine ⟨?_, ?_, ?_⟩
  · exact ((get_emails_spec sampleUserHost "src" ""
      "shared@example.com").2.2.1 rfl).mpr (by decide)
  · exact (get_emails_spec sampleUserHost "src" "" "z").2.1
  · intro hmem
    have h := ((get_emails_spec sampleUserHost "src" "operator"
      "anna@example.com").2.2.2 (by decide)).mp hmem
    exact absurd h (by decide)

end Incendium.User
